import Mathlib

/-!
Verification of the ecommerce-rag repository: a shallow embedding of the
RAG pipeline (app/services/rag_service.py), the document processor
(app/services/document_service.py), the HTTP endpoints
(app/api/v1/endpoints.py) and the request schemas (app/models/schemas.py),
together with theorems settling the specification claims.

External effects (the vector-store similarity search and the LLM
invocations) are passed in as explicit parameters: the similarity search
becomes the list of documents it returned, and an LLM invocation becomes a
function from (model name, context, question) to either an error text or a
generated answer, mirroring how the Python code consumes them.
-/

/-- A LangChain `Document` as used by the pipeline: its `page_content`
text and the value of its `metadata["source"]` entry (absent when the
metadata dict has no `source` key). -/
structure Document where
  page_content : String
  metadata_source : Option String
deriving DecidableEq, Repr

/-- One entry of the `sources` list returned by `generate_answer`. -/
structure SourceItem where
  source : String
  content : String
deriving DecidableEq, Repr

/-- Whether `needle` occurs as a contiguous substring of `hay`
(character-list level), modelling Python's `in` on strings. -/
def containsSub (hay needle : List Char) : Bool :=
  match hay with
  | [] => needle.isEmpty
  | _ :: t => needle.isPrefixOf hay || containsSub t needle

namespace RAGService

/-- The rate-limit classifier from `generate_answer`'s except-branch:
`"RESOURCE_EXHAUSTED" in str(e) or "429" in str(e)`. -/
def isRateLimitError (e : String) : Bool :=
  containsSub e.data "RESOURCE_EXHAUSTED".data || containsSub e.data "429".data

/-- `_format_docs`: `"\n\n".join(doc.page_content for doc in docs)`. -/
def _format_docs (docs : List Document) : String :=
  String.intercalate "\n\n" (docs.map Document.page_content)

/-- The loop body of `_deduplicate`, with the `seen` set modelled as the
list of page contents added so far. -/
def dedupAux : List String → List Document → List Document
  | _, [] => []
  | seen, d :: rest =>
    if d.page_content ∈ seen then dedupAux seen rest
    else d :: dedupAux (d.page_content :: seen) rest

/-- `_deduplicate`: remove duplicate chunks based on content. -/
def _deduplicate (docs : List Document) : List Document :=
  dedupAux [] docs

/-- The fixed answer returned when retrieval yields no documents. -/
def no_docs_answer : String :=
  "I couldn" ++ (Char.ofNat 39).toString ++
    "t find any relevant documents to answer your question."

/-- One `sources` entry built in the success branch of the model loop:
`{"source": doc.metadata.get("source", "unknown"),
  "content": doc.page_content[:200] + "..."}`. -/
def mkSourceItem (d : Document) : SourceItem :=
  { source := d.metadata_source.getD "unknown"
    content := d.page_content.take 200 ++ "..." }

/-- Outcome of `generate_answer`: a returned answer with sources, a
raised exception (carrying the error text), or the degenerate
`raise last_error` with `last_error` still `None` (empty model list). -/
inductive GenOutcome where
  | answered (answer : String) (sources : List SourceItem)
  | raised (err : String)
  | raisedNone
deriving DecidableEq, Repr

/-- One LLM invocation: from model name, context text and question to
either the generated answer or the raised exception's text. -/
def Invoke := String → String → String → Except String String

/-- The `for llm, model_name in zip(...)` loop of `generate_answer`.
Returns the outcome together with the list of model names attempted, in
order. On success the precomputed `sources` list is attached; a
rate-limit-class error is recorded as `last_error` and the loop
continues; any other error is re-raised at once; an exhausted list
raises the last recorded error. -/
def tryModels (invoke : Invoke) (ctx question : String)
    (sources : List SourceItem) :
    List String → Option String → GenOutcome × List String
  | [], last =>
    (match last with
     | some e => .raised e
     | none => .raisedNone, [])
  | m :: rest, _ =>
    match invoke m ctx question with
    | .ok ans => (.answered ans sources, [m])
    | .error e =>
      if isRateLimitError e then
        let r := tryModels invoke ctx question sources rest (some e)
        (r.1, m :: r.2)
      else (.raised e, [m])

/-- `generate_answer`, with the similarity-search result passed in as
`docs` and the LLM calls as `invoke`. Returns the outcome and the trace
of model names attempted. -/
def generate_answer (docs : List Document) (invoke : Invoke)
    (model_names : List String) (query : String) : GenOutcome × List String :=
  if docs.isEmpty then (.answered no_docs_answer [], [])
  else
    let unique_docs := _deduplicate docs
    let context_text := _format_docs unique_docs
    tryModels invoke context_text query (unique_docs.map mkSourceItem)
      model_names none

end RAGService

namespace RAGService

/-- A concrete two-document retrieval used to instantiate the theorems. -/
def docsW : List Document :=
  [{ page_content := "chunk one", metadata_source := some "doc.pdf" },
   { page_content := "chunk two", metadata_source := none }]

/-- A concrete invocation function: model `modelA` is rate-limited with a
429 message, `modelB` with a RESOURCE_EXHAUSTED message, and any other
model answers. -/
def invokeW1 : Invoke := fun m _ _ =>
  if m = "modelA" then .error "429 quota exceeded"
  else if m = "modelB" then .error "RESOURCE_EXHAUSTED: retry later"
  else .ok "final answer"

/-- A concrete invocation function: `modelA` is rate-limited, every
other model fails with a non-rate-limit error. -/
def invokeW2 : Invoke := fun m _ _ =>
  if m = "modelA" then .error "429 quota exceeded"
  else .error "invalid request"

/-- A concrete invocation function: every model fails with a rate-limit
error naming the model. -/
def invokeW4 : Invoke := fun m _ _ => .error ("429 on " ++ m)

/-- A concrete invocation function whose every model succeeds. -/
def invokeOk : Invoke := fun _ _ _ => .ok "ans"

/-- A concrete retrieval in which the first two chunks carry identical
text under different source filenames, and a third chunk with other
text carries the second filename. -/
def docsC10 : List Document :=
  [{ page_content := "t", metadata_source := some "a.pdf" },
   { page_content := "t", metadata_source := some "b.pdf" },
   { page_content := "u", metadata_source := some "b.pdf" }]

/-- The spec's description of deduplication, written independently of
the code: keep the first occurrence of each distinct `page_content`
value, in input order. -/
def firstOccurrences : List Document → List Document
  | [] => []
  | d :: rest =>
    d :: firstOccurrences
      (rest.filter (fun x => decide (x.page_content ≠ d.page_content)))
termination_by l => l.length
decreasing_by
  simp only [List.length_cons]
  exact Nat.lt_succ_of_le (rest.length_filter_le _)

end RAGService

namespace DocumentService

/-- `chunk_size` configured on the text splitter. -/
def chunk_size : Nat := 1000

/-- `chunk_overlap` configured on the text splitter. -/
def chunk_overlap : Nat := 200

/-- Result of `process_file`: the chunk list, or a raised
`HTTPException` with its status code and detail string. -/
inductive ProcessResult where
  | chunks (cs : List String)
  | httpError (status : Nat) (detail : String)
deriving DecidableEq, Repr

/-- The page loop of `process_file`: concatenate each page's extracted
text followed by a newline, skipping pages whose extraction is empty. -/
def extractText (pages : List String) : String :=
  pages.foldl (fun acc p => if p = "" then acc else acc ++ p ++ "\n") ""

/-- `process_file`, with the external parser modelled by `read_ok`
(whether `PdfReader` construction and page extraction succeed) and
`pages` the per-page extracted texts, and the chunker passed in as
`split` (the 500 detail string of a parser failure is abstracted). -/
def process_file (content_type : String) (read_ok : Bool)
    (pages : List String) (split : String → List String) : ProcessResult :=
  if content_type ≠ "application/pdf" then
    .httpError 400 "Only PDF files are supported."
  else if read_ok = false then
    .httpError 500 "Failed to process PDF"
  else
    let text_content := extractText pages
    if text_content.trim = "" then
      .httpError 422
        "PDF contains no extractable text (may be scanned/image-based)."
    else
      .chunks (split text_content)

/-- Modelled from the spec: the repository delegates chunking to
`RecursiveCharacterTextSplitter(chunk_size=1000, chunk_overlap=200,
separators=["\n\n", "\n", " ", ""])` from an external library whose
code is not part of this repository. Following the spec's words, the
text is split recursively on paragraph, then line, then space, then
character boundaries, stopping as soon as a piece fits the target
length. -/
def atomize : List String → String → List String
  | [], text =>
    if text.length ≤ chunk_size then [text]
    else text.data.map (fun c => String.mk [c])
  | sep :: rest, text =>
    if text.length ≤ chunk_size then [text]
    else ((text.splitOn sep).map (fun piece => atomize rest piece)).flatten

/-- Modelled from the spec: the last `n` characters of `s`, the overlap
carried from one chunk into the next. -/
def lastChars (s : String) (n : Nat) : String :=
  String.mk (s.data.drop (s.data.length - n))

/-- Modelled from the spec: greedily merge split pieces into chunks of
at most `chunk_size` characters, seeding each following chunk with up
to `chunk_overlap` trailing characters of the chunk just emitted
(capped so that the seed plus the next piece still fits); a piece
longer than `chunk_size` becomes a chunk of its own. -/
def mergeSplits : List String → String → List String
  | [], cur => if cur = "" then [] else [cur]
  | p :: rest, cur =>
    if cur.length + p.length ≤ chunk_size then mergeSplits rest (cur ++ p)
    else if cur = "" then p :: mergeSplits rest ""
    else
      let seed := lastChars cur (min chunk_overlap (chunk_size - p.length))
      cur :: (if seed.length + p.length ≤ chunk_size
              then mergeSplits rest (seed ++ p)
              else p :: mergeSplits rest "")

/-- Modelled from the spec: `split_text` of the configured splitter —
atomize on the configured separator hierarchy, then merge with
overlap. -/
def split_text (text : String) : List String :=
  mergeSplits (atomize ["\n\n", "\n", " "] text) ""

end DocumentService

namespace endpoints

/-- The `DocumentResponse` payload of a successful upload. -/
structure DocumentResponse where
  filename : String
  content_type : String
  size : Nat
  chunks_created : Nat
  message : String
deriving DecidableEq, Repr

/-- Result of the upload endpoint: a response, or an HTTP error. -/
inductive UploadResult where
  | ok (resp : DocumentResponse)
  | err (status : Nat) (detail : String)
deriving DecidableEq, Repr

/-- `upload_document`: process the file, then store the chunks. Returns
the result paired with the number of calls made to the vector store's
add operation. `add_result` models `vector_service.add_texts` (`.ok ()`
on success, `.error e` when the store raises `e`, which the endpoint's
generic handler maps to a 500). -/
def upload_document (filename content_type : String) (size : Nat)
    (read_ok : Bool) (pages : List String)
    (split : String → List String)
    (add_result : Except String Unit) : UploadResult × Nat :=
  match DocumentService.process_file content_type read_ok pages split with
  | .httpError s d => (.err s d, 0)
  | .chunks cs =>
    match add_result with
    | .error e => (.err 500 e, 1)
    | .ok _ =>
      (.ok { filename := filename, content_type := content_type,
             size := size, chunks_created := cs.length,
             message := "File processed and embeddings stored successfully." },
        1)

end endpoints

namespace schemas

/-- Outcome of FastAPI parameter handling: the request proceeds with a
value for `k`, or validation rejects the request before any handler
runs. -/
inductive ParamOutcome where
  | accepted (k : Int)
  | rejected
deriving DecidableEq, Repr

/-- `ChatRequest`'s `k` field, `Field(default=3, ge=1, le=10)`: an
omitted `k` defaults to 3; a supplied `k` must lie in 1..10, otherwise
pydantic validation rejects the request. -/
def chat_k_param : Option Int → ParamOutcome
  | none => .accepted 3
  | some kv => if 1 ≤ kv ∧ kv ≤ 10 then .accepted kv else .rejected

/-- The `/search` endpoint's `k` handling (`k: int = 3`): an omitted
`k` defaults to 3 and any supplied integer is accepted unchecked. -/
def search_k_param : Option Int → ParamOutcome
  | none => .accepted 3
  | some kv => .accepted kv

end schemas

namespace RAGService

/-- Head of the model list succeeds: the loop returns at once with the
precomputed sources and only that model attempted. -/
theorem tryModels_head_ok (invoke : Invoke) (ctx q : String)
    (srcs : List SourceItem) (m : String) (rest : List String)
    (last : Option String) (ans : String)
    (h : invoke m ctx q = .ok ans) :
    tryModels invoke ctx q srcs (m :: rest) last = (.answered ans srcs, [m]) := by
  simp [tryModels, h]

/-- Head of the model list fails with a non-rate-limit error: the loop
re-raises it at once, attempting no further model. -/
theorem tryModels_head_fatal (invoke : Invoke) (ctx q : String)
    (srcs : List SourceItem) (m : String) (rest : List String)
    (last : Option String) (e : String)
    (h : invoke m ctx q = .error e) (hrl : isRateLimitError e = false) :
    tryModels invoke ctx q srcs (m :: rest) last = (.raised e, [m]) := by
  simp [tryModels, h, hrl]

/-- A prefix of models that all fail with rate-limit errors is skipped:
the loop behaves like the loop on the remaining models (for some
recorded last error), with the skipped models prepended to the trace. -/
theorem tryModels_skip_rate_limited (invoke : Invoke) (ctx q : String)
    (srcs : List SourceItem) (ms₂ : List String) :
    ∀ (ms₁ : List String) (last : Option String),
      (∀ m ∈ ms₁, ∃ e, invoke m ctx q = .error e ∧ isRateLimitError e = true) →
      ∃ last2 : Option String,
        tryModels invoke ctx q srcs (ms₁ ++ ms₂) last =
          ((tryModels invoke ctx q srcs ms₂ last2).1,
            ms₁ ++ (tryModels invoke ctx q srcs ms₂ last2).2)
  | [], last, _ => ⟨last, rfl⟩
  | m :: ms₁, last, h => by
    obtain ⟨e, he, herl⟩ := h m (List.mem_cons_self m ms₁)
    obtain ⟨last2, ih⟩ := tryModels_skip_rate_limited invoke ctx q srcs ms₂ ms₁
      (some e) (fun m' hm' => h m' (List.mem_cons_of_mem m hm'))
    refine ⟨last2, ?_⟩
    simp [tryModels, he, herl, ih]

/-- Head of the model list fails with a rate-limit error: the loop
records it as the last error and continues with the remaining models. -/
theorem tryModels_cons_rate_limited (invoke : Invoke) (ctx q : String)
    (srcs : List SourceItem) (m : String) (rest : List String)
    (last : Option String) (e : String)
    (he : invoke m ctx q = .error e) (herl : isRateLimitError e = true) :
    tryModels invoke ctx q srcs (m :: rest) last =
      ((tryModels invoke ctx q srcs rest (some e)).1,
        m :: (tryModels invoke ctx q srcs rest (some e)).2) := by
  simp [tryModels, he, herl]

/-- When every model in the list fails with a rate-limit error (the
error text of model `m` being `errOf m`), the loop attempts all models
and raises the last model's error. -/
theorem tryModels_all_rate_limited (invoke : Invoke) (ctx q : String)
    (srcs : List SourceItem) (errOf : String → String) :
    ∀ (models : List String) (last : Option String) (mL : String),
      models.getLast? = some mL →
      (∀ m ∈ models, invoke m ctx q = .error (errOf m) ∧
        isRateLimitError (errOf m) = true) →
      tryModels invoke ctx q srcs models last = (.raised (errOf mL), models)
  | [], _, _, hL, _ => by simp at hL
  | [m], last, mL, hL, h => by
    obtain ⟨he, herl⟩ := h m (List.mem_cons_self m [])
    have hm : mL = m := by simpa using hL.symm
    subst hm
    simp [tryModels, he, herl]
  | m :: m2 :: ms, last, mL, hL, h => by
    obtain ⟨he, herl⟩ := h m (List.mem_cons_self m (m2 :: ms))
    have ih := tryModels_all_rate_limited invoke ctx q srcs errOf (m2 :: ms)
      (some (errOf m)) mL (by simpa using hL)
      (fun m' hm' => h m' (List.mem_cons_of_mem m hm'))
    rw [tryModels_cons_rate_limited invoke ctx q srcs m (m2 :: ms) last
      (errOf m) he herl, ih]

/-- C1: with configured models `[A, B, C]`, if `A` and `B` each fail
with a rate-limit-class error and `C` succeeds, `generate_answer`
returns C's generated text with the sources of the deduplicated
retrieval, and the attempted models are exactly `A`, `B`, `C` in that
order, each once. -/
theorem generate_answer_fallback_to_third (docs : List Document)
    (invoke : Invoke) (A B C q eA eB ans : String)
    (hdocs : docs ≠ [])
    (hA : invoke A (_format_docs (_deduplicate docs)) q = .error eA)
    (hArl : isRateLimitError eA = true)
    (hB : invoke B (_format_docs (_deduplicate docs)) q = .error eB)
    (hBrl : isRateLimitError eB = true)
    (hC : invoke C (_format_docs (_deduplicate docs)) q = .ok ans) :
    generate_answer docs invoke [A, B, C] q =
      (.answered ans ((_deduplicate docs).map mkSourceItem), [A, B, C]) := by
  have hne : docs.isEmpty = false := by
    cases docs with
    | nil => exact absurd rfl hdocs
    | cons d t => rfl
  simp only [generate_answer, hne, Bool.false_eq_true, if_false]
  simp [tryModels, hA, hArl, hB, hBrl, hC]

/-- C2: with non-empty retrieval, a model that fails with a
non-rate-limit error (after any prefix of rate-limited models) makes
`generate_answer` raise that error at once; the models after it are
never attempted. -/
theorem generate_answer_fatal_aborts (docs : List Document)
    (invoke : Invoke) (ms₁ : List String) (m : String) (ms₂ : List String)
    (q e : String) (hdocs : docs ≠ [])
    (hpre : ∀ m' ∈ ms₁, ∃ e', invoke m' (_format_docs (_deduplicate docs)) q
      = .error e' ∧ isRateLimitError e' = true)
    (hm : invoke m (_format_docs (_deduplicate docs)) q = .error e)
    (hrl : isRateLimitError e = false) :
    generate_answer docs invoke (ms₁ ++ m :: ms₂) q = (.raised e, ms₁ ++ [m]) := by
  have hne : docs.isEmpty = false := by
    cases docs with
    | nil => exact absurd rfl hdocs
    | cons d t => rfl
  simp only [generate_answer, hne, Bool.false_eq_true, if_false]
  obtain ⟨last2, hskip⟩ := tryModels_skip_rate_limited invoke
    (_format_docs (_deduplicate docs)) q ((_deduplicate docs).map mkSourceItem)
    (m :: ms₂) ms₁ none hpre
  rw [hskip, tryModels_head_fatal _ _ _ _ _ _ _ _ hm hrl]

/-- C3: when retrieval returns no documents, `generate_answer` returns
the fixed "no relevant documents" answer with an empty sources list and
attempts no model at all. -/
theorem generate_answer_no_docs (invoke : Invoke)
    (model_names : List String) (q : String) :
    generate_answer [] invoke model_names q =
      (.answered no_docs_answer [], []) := rfl

/-- C4: with non-empty retrieval, if every configured model fails with a
rate-limit-class error, `generate_answer` raises the error produced by
the last model in the list, having attempted every model. -/
theorem generate_answer_exhausted (docs : List Document)
    (invoke : Invoke) (models : List String) (q mL : String)
    (errOf : String → String) (hdocs : docs ≠ [])
    (hL : models.getLast? = some mL)
    (h : ∀ m ∈ models, invoke m (_format_docs (_deduplicate docs)) q
      = .error (errOf m) ∧ isRateLimitError (errOf m) = true) :
    generate_answer docs invoke models q = (.raised (errOf mL), models) := by
  have hne : docs.isEmpty = false := by
    cases docs with
    | nil => exact absurd rfl hdocs
    | cons d t => rfl
  simp only [generate_answer, hne, Bool.false_eq_true, if_false]
  exact tryModels_all_rate_limited invoke _ q _ errOf models none mL hL h

/-- Witness for C1 at the concrete retrieval `docsW` and invocation
`invokeW1`. -/
theorem generate_answer_fallback_to_third_witness :
    generate_answer docsW invokeW1 ["modelA", "modelB", "modelC"] "q" =
      (.answered "final answer" ((_deduplicate docsW).map mkSourceItem),
        ["modelA", "modelB", "modelC"]) :=
  generate_answer_fallback_to_third docsW invokeW1 "modelA" "modelB" "modelC"
    "q" "429 quota exceeded" "RESOURCE_EXHAUSTED: retry later" "final answer"
    (by decide) rfl (by decide) rfl (by decide) rfl

/-- Witness for C2 at the concrete retrieval `docsW` and invocation
`invokeW2`: `modelA` is rate-limited, `modelB` fails fatally, `modelC`
is never attempted. -/
theorem generate_answer_fatal_aborts_witness :
    generate_answer docsW invokeW2 (["modelA"] ++ "modelB" :: ["modelC"]) "q" =
      (.raised "invalid request", ["modelA"] ++ ["modelB"]) :=
  generate_answer_fatal_aborts docsW invokeW2 ["modelA"] "modelB" ["modelC"]
    "q" "invalid request" (by decide)
    (by
      intro m' hm'
      have hm : m' = "modelA" := by simpa using hm'
      subst hm
      exact ⟨"429 quota exceeded", rfl, by decide⟩)
    rfl (by decide)

/-- The dedup loop on input `l` with `seen` already populated equals the
spec's first-occurrence filter applied to the elements of `l` whose
content is not yet seen. -/
theorem dedupAux_eq_firstOccurrences :
    ∀ (l : List Document) (seen : List String),
      dedupAux seen l =
        firstOccurrences (l.filter (fun d => decide (d.page_content ∉ seen)))
  | [], seen => by simp [dedupAux, firstOccurrences]
  | d :: rest, seen => by
    by_cases h : d.page_content ∈ seen
    · have hp : decide (d.page_content ∉ seen) = false := by simpa using h
      simp only [dedupAux, if_pos h, List.filter_cons, hp,
        Bool.false_eq_true, if_false]
      exact dedupAux_eq_firstOccurrences rest seen
    · have hp : decide (d.page_content ∉ seen) = true := by simpa using h
      simp only [dedupAux, if_neg h, List.filter_cons, hp, if_true]
      rw [firstOccurrences]
      congr 1
      rw [List.filter_filter,
        dedupAux_eq_firstOccurrences rest (d.page_content :: seen)]
      congr 1
      apply List.filter_congr
      intro x _
      by_cases h1 : x.page_content = d.page_content <;>
        by_cases h2 : x.page_content ∈ seen <;> simp [h1, h2]

/-- Every document kept by the dedup loop has content outside `seen`. -/
theorem dedupAux_not_mem_seen :
    ∀ (l : List Document) (seen : List String) (d : Document),
      d ∈ dedupAux seen l → d.page_content ∉ seen
  | [], _, _ => by simp [dedupAux]
  | x :: rest, seen, d => by
    by_cases h : x.page_content ∈ seen
    · simp only [dedupAux, if_pos h]
      exact dedupAux_not_mem_seen rest seen d
    · simp only [dedupAux, if_neg h]
      intro hd
      rcases List.mem_cons.mp hd with h1 | h1
      · subst h1; exact h
      · have h2 := dedupAux_not_mem_seen rest _ d h1
        exact fun hmem => h2 (List.mem_cons_of_mem _ hmem)

/-- The documents kept by the dedup loop have pairwise distinct
contents. -/
theorem dedupAux_pairwise :
    ∀ (l : List Document) (seen : List String),
      (dedupAux seen l).Pairwise (fun a b => a.page_content ≠ b.page_content)
  | [], _ => by simp [dedupAux]
  | x :: rest, seen => by
    by_cases h : x.page_content ∈ seen
    · simp only [dedupAux, if_pos h]
      exact dedupAux_pairwise rest seen
    · simp only [dedupAux, if_neg h]
      refine List.Pairwise.cons ?_ (dedupAux_pairwise rest _)
      intro b hb
      have h2 := dedupAux_not_mem_seen rest _ b hb
      exact fun hEq => h2 (by rw [← hEq]; exact List.mem_cons_self _ _)

/-- The dedup loop leaves a list unchanged when its contents are
pairwise distinct and none of them is in `seen`. -/
theorem dedupAux_eq_self :
    ∀ (l : List Document) (seen : List String),
      l.Pairwise (fun a b => a.page_content ≠ b.page_content) →
      (∀ d ∈ l, d.page_content ∉ seen) →
      dedupAux seen l = l
  | [], _, _, _ => rfl
  | x :: rest, seen, hpw, hseen => by
    have hx : x.page_content ∉ seen := hseen x (List.mem_cons_self _ _)
    simp only [dedupAux, if_neg hx]
    congr 1
    refine dedupAux_eq_self rest _ (List.Pairwise.of_cons hpw) ?_
    intro d hd hmem
    rcases List.mem_cons.mp hmem with h1 | h1
    · exact (List.rel_of_pairwise_cons hpw hd) h1.symm
    · exact hseen d (List.mem_cons_of_mem _ hd) h1

/-- C5: `_deduplicate` keeps exactly the first occurrence of each
distinct `page_content` value in input order (it equals the spec-side
`firstOccurrences`), and it is idempotent. -/
theorem deduplicate_first_occurrence_idempotent (docs : List Document) :
    _deduplicate docs = firstOccurrences docs ∧
      _deduplicate (_deduplicate docs) = _deduplicate docs := by
  constructor
  · have h := dedupAux_eq_firstOccurrences docs []
    simpa [_deduplicate, List.filter_true] using h
  · show dedupAux [] (dedupAux [] docs) = dedupAux [] docs
    exact dedupAux_eq_self _ [] (dedupAux_pairwise docs []) (fun d _ => by simp)

/-- Witness for C4 at the concrete retrieval `docsW` and invocation
`invokeW4`: both models are rate-limited and the second model's error is
raised. -/
theorem generate_answer_exhausted_witness :
    generate_answer docsW invokeW4 ["modelA", "modelB"] "q" =
      (.raised ("429 on " ++ "modelB"), ["modelA", "modelB"]) :=
  generate_answer_exhausted docsW invokeW4 ["modelA", "modelB"] "q" "modelB"
    (fun m => "429 on " ++ m) (by decide) rfl
    (by
      intro m hm
      refine ⟨rfl, ?_⟩
      have : m = "modelA" ∨ m = "modelB" := by simpa using hm
      rcases this with h | h <;> subst h <;> decide)

/-- The model loop can only return the sources list it was given. -/
theorem tryModels_fst_answered (invoke : Invoke) (ctx q : String)
    (srcs : List SourceItem) :
    ∀ (models : List String) (last : Option String) (a : String)
      (s : List SourceItem),
      (tryModels invoke ctx q srcs models last).1 = .answered a s → s = srcs
  | [], last, a, s => by cases last <;> simp [tryModels]
  | m :: rest, last, a, s => by
    cases hm : invoke m ctx q with
    | ok ans =>
      simp only [tryModels, hm]
      intro h
      injection h with h1 h2
      exact h2.symm
    | error e =>
      cases hrl : isRateLimitError e with
      | true =>
        simp only [tryModels, hm, hrl, if_true]
        exact tryModels_fst_answered invoke ctx q srcs rest (some e) a s
      | false =>
        simp only [tryModels, hm, hrl, Bool.false_eq_true, if_false]
        intro h
        exact absurd h (by simp)

/-- `(s.take n).length ≤ n` for strings, through the character list. -/
theorem string_take_length_le (s : String) (n : Nat) : (s.take n).length ≤ n := by
  rw [String.take_eq]
  exact s.data.length_take_le n

/-- C8: on LLM success with non-empty retrieval, the sources list has
exactly one entry per surviving deduplicated chunk, in the same order
(it is the image of the deduplicated list under `mkSourceItem`), and
each entry carries the chunk's source filename (or "unknown" when the
metadata has no source) and a preview of at most 200 characters of the
chunk text followed by the "..." ellipsis marker. -/
theorem generate_answer_sources_shape (docs : List Document)
    (invoke : Invoke) (models : List String) (q a : String)
    (s : List SourceItem) (tr : List String) (hdocs : docs ≠ [])
    (h : generate_answer docs invoke models q = (.answered a s, tr)) :
    s = (_deduplicate docs).map mkSourceItem ∧
      ∀ item ∈ s, ∃ d ∈ _deduplicate docs,
        item.source = d.metadata_source.getD "unknown" ∧
        item.content = d.page_content.take 200 ++ "..." ∧
        (d.page_content.take 200).length ≤ 200 := by
  have hne : docs.isEmpty = false := by
    cases docs with
    | nil => exact absurd rfl hdocs
    | cons d t => rfl
  simp only [generate_answer, hne, Bool.false_eq_true, if_false] at h
  have hs : s = (_deduplicate docs).map mkSourceItem :=
    tryModels_fst_answered invoke _ q _ models none a s
      (by rw [h])
  refine ⟨hs, ?_⟩
  intro item hitem
  rw [hs] at hitem
  obtain ⟨d, hd, hmap⟩ := List.mem_map.mp hitem
  exact ⟨d, hd, by rw [← hmap]; rfl, by rw [← hmap]; rfl,
    string_take_length_le _ _⟩

/-- Witness for C8 at the concrete retrieval `docsW` with a first-model
success. -/
theorem generate_answer_sources_shape_witness :
    (_deduplicate docsW).map mkSourceItem
        = (_deduplicate docsW).map mkSourceItem ∧
      ∀ item ∈ (_deduplicate docsW).map mkSourceItem,
        ∃ d ∈ _deduplicate docsW,
          item.source = d.metadata_source.getD "unknown" ∧
          item.content = d.page_content.take 200 ++ "..." ∧
          (d.page_content.take 200).length ≤ 200 :=
  generate_answer_sources_shape docsW invokeOk ["modelZ"] "q" "ans"
    ((_deduplicate docsW).map mkSourceItem) ["modelZ"] (by decide) rfl

/-- Every document kept by the dedup loop is the first element of the
input bearing its `page_content`. -/
theorem dedupAux_find_first :
    ∀ (l : List Document) (seen : List String) (d : Document),
      d ∈ dedupAux seen l →
      l.find? (fun x => x.page_content == d.page_content) = some d
  | [], _, _ => by simp [dedupAux]
  | x :: rest, seen, d => by
    by_cases h : x.page_content ∈ seen
    · simp only [dedupAux, if_pos h]
      intro hd
      have hdn := dedupAux_not_mem_seen rest seen d hd
      have hne : (x.page_content == d.page_content) = false :=
        beq_eq_false_iff_ne.mpr (fun hEq => hdn (hEq ▸ h))
      rw [List.find?_cons_of_neg _ (by simp [hne])]
      exact dedupAux_find_first rest seen d hd
    · simp only [dedupAux, if_neg h]
      intro hd
      rcases List.mem_cons.mp hd with h1 | h1
      · subst h1
        rw [List.find?_cons_of_pos _ (by simp)]
      · have hdn := dedupAux_not_mem_seen rest _ d h1
        have hne : (x.page_content == d.page_content) = false :=
          beq_eq_false_iff_ne.mpr
            (fun hEq => hdn (by rw [← hEq]; exact List.mem_cons_self _ _))
        rw [List.find?_cons_of_neg _ (by simp [hne])]
        exact dedupAux_find_first rest _ d h1

/-- C10 (amended): deduplication compares only chunk text and ignores
metadata — every surviving chunk is the first retrieved chunk bearing
its text, and every entry of a successful answer's sources list is
built from such a first-occurrence chunk; a chunk preceded by an
identical-text chunk therefore contributes no entry of its own, and its
source filename can appear only through another surviving chunk. -/
theorem generate_answer_sources_first_occurrence (docs : List Document)
    (invoke : Invoke) (models : List String) (q a : String)
    (s : List SourceItem) (tr : List String) (hdocs : docs ≠ [])
    (h : generate_answer docs invoke models q = (.answered a s, tr)) :
    (∀ d ∈ _deduplicate docs,
      docs.find? (fun x => x.page_content == d.page_content) = some d) ∧
    ∀ item ∈ s, ∃ d ∈ _deduplicate docs,
      docs.find? (fun x => x.page_content == d.page_content) = some d ∧
      item.source = d.metadata_source.getD "unknown" := by
  have hne : docs.isEmpty = false := by
    cases docs with
    | nil => exact absurd rfl hdocs
    | cons d t => rfl
  simp only [generate_answer, hne, Bool.false_eq_true, if_false] at h
  have hs : s = (_deduplicate docs).map mkSourceItem :=
    tryModels_fst_answered invoke _ q _ models none a s (by rw [h])
  refine ⟨fun d hd => dedupAux_find_first docs [] d hd, ?_⟩
  intro item hitem
  rw [hs] at hitem
  obtain ⟨d, hd, hmap⟩ := List.mem_map.mp hitem
  exact ⟨d, hd, dedupAux_find_first docs [] d hd, by rw [← hmap]; rfl⟩

/-- Witness for the amended C10 at the concrete retrieval `docsC10`. -/
theorem generate_answer_sources_first_occurrence_witness :
    (∀ d ∈ _deduplicate docsC10,
      docsC10.find? (fun x => x.page_content == d.page_content) = some d) ∧
    ∀ item ∈ (_deduplicate docsC10).map mkSourceItem,
      ∃ d ∈ _deduplicate docsC10,
        docsC10.find? (fun x => x.page_content == d.page_content) = some d ∧
        item.source = d.metadata_source.getD "unknown" :=
  generate_answer_sources_first_occurrence docsC10 invokeOk ["modelZ"] "q"
    "ans" ((_deduplicate docsC10).map mkSourceItem) ["modelZ"] (by decide) rfl

/-- Counterexample to C10 as stated: in `docsC10`, chunks 0 and 1 have
identical text and different source filenames, yet the later chunk's
filename "b.pdf" still appears in the answer's sources list, carried by
the third chunk. -/
theorem dedup_ignores_metadata_counterexample :
    (docsC10.get ⟨0, by decide⟩).page_content
        = (docsC10.get ⟨1, by decide⟩).page_content
  ∧ (docsC10.get ⟨0, by decide⟩).metadata_source
        ≠ (docsC10.get ⟨1, by decide⟩).metadata_source
  ∧ generate_answer docsC10 invokeOk ["modelZ"] "q"
      = (.answered "ans" ((_deduplicate docsC10).map mkSourceItem), ["modelZ"])
  ∧ "b.pdf" ∈ ((_deduplicate docsC10).map mkSourceItem).map SourceItem.source := by
  refine ⟨rfl, by decide, rfl, ?_⟩
  have hd : _deduplicate docsC10 =
      [{ page_content := "t", metadata_source := some "a.pdf" },
       { page_content := "u", metadata_source := some "b.pdf" }] := by decide
  rw [hd]
  simp [mkSourceItem]

end RAGService

namespace endpoints

/-- C6: uploading a file whose content type is not `application/pdf`
yields HTTP status 400 with the fixed detail string, and the vector
store's add operation is never called. -/
theorem upload_non_pdf_rejected (filename content_type : String)
    (size : Nat) (read_ok : Bool) (pages : List String)
    (split : String → List String) (add_result : Except String Unit)
    (h : content_type ≠ "application/pdf") :
    upload_document filename content_type size read_ok pages split add_result
      = (.err 400 "Only PDF files are supported.", 0) := by
  simp [upload_document, DocumentService.process_file, h]

/-- Witness for C6 at a concrete `text/plain` upload. -/
theorem upload_non_pdf_rejected_witness :
    upload_document "notes.txt" "text/plain" 42 true ["hello"]
        (fun t => [t]) (.ok ())
      = (.err 400 "Only PDF files are supported.", 0) :=
  upload_non_pdf_rejected "notes.txt" "text/plain" 42 true ["hello"]
    (fun t => [t]) (.ok ()) (by decide)

end endpoints

namespace schemas

/-- C7 (amended): for chat requests, `k` is bounded to 1..10 with
default 3 — an omitted `k` gives 3, an in-range `k` is accepted, and an
out-of-range `k` is rejected by validation; search requests default `k`
to 3 but accept any supplied integer unchecked. -/
theorem k_param_bounds (k : Int) :
    chat_k_param none = .accepted 3 ∧
    chat_k_param (some k)
        = (if 1 ≤ k ∧ k ≤ 10 then .accepted k else .rejected) ∧
    search_k_param none = .accepted 3 ∧
    search_k_param (some k) = .accepted k :=
  ⟨rfl, rfl, rfl, rfl⟩

/-- Counterexample to C7 as stated: a search request with `k = 11`,
outside 1..10, is accepted and processed rather than rejected. -/
theorem search_k_unbounded_counterexample :
    ¬ (1 ≤ (11 : Int) ∧ (11 : Int) ≤ 10) ∧
      search_k_param (some 11) = .accepted 11 :=
  ⟨by decide, rfl⟩

end schemas

namespace DocumentService

/-- Every atomic piece produced by the recursive split is at most
`chunk_size` characters long: a text that fits is kept whole, and an
oversized text falls through the separators to the character-boundary
fallback. -/
theorem atomize_length_le :
    ∀ (seps : List String) (text : String),
      ∀ p ∈ atomize seps text, p.length ≤ chunk_size
  | [], text => by
    by_cases h : text.length ≤ chunk_size
    · simp only [atomize, if_pos h]
      intro p hp
      rw [List.mem_singleton.mp hp]
      exact h
    · simp only [atomize, if_neg h]
      intro p hp
      obtain ⟨c, _, rfl⟩ := List.mem_map.mp hp
      show [c].length ≤ chunk_size
      simp [chunk_size]
  | sep :: rest, text => by
    by_cases h : text.length ≤ chunk_size
    · simp only [atomize, if_pos h]
      intro p hp
      rw [List.mem_singleton.mp hp]
      exact h
    · simp only [atomize, if_neg h]
      intro p hp
      obtain ⟨m, hm, hpm⟩ := List.mem_flatten.mp hp
      obtain ⟨piece, _, rfl⟩ := List.mem_map.mp hm
      exact atomize_length_le rest piece p hpm

/-- Every chunk produced by the merge loop is at most `chunk_size`
characters long, provided the running chunk and all pieces are. -/
theorem mergeSplits_length_le :
    ∀ (ps : List String) (cur : String),
      cur.length ≤ chunk_size →
      (∀ p ∈ ps, p.length ≤ chunk_size) →
      ∀ c ∈ mergeSplits ps cur, c.length ≤ chunk_size
  | [], cur, hcur, _ => by
    by_cases h : cur = "" <;> simp only [mergeSplits, h, if_pos, if_neg] <;>
      simp_all
  | p :: rest, cur, hcur, hps => by
    have hp := hps p (List.mem_cons_self _ _)
    have hrest : ∀ x ∈ rest, x.length ≤ chunk_size :=
      fun x hx => hps x (List.mem_cons_of_mem _ hx)
    by_cases h1 : cur.length + p.length ≤ chunk_size
    · simp only [mergeSplits, if_pos h1]
      refine mergeSplits_length_le rest (cur ++ p) ?_ hrest
      rw [String.length_append]
      exact h1
    · by_cases h2 : cur = ""
      · simp only [mergeSplits, if_neg h1, if_pos h2]
        intro c hc
        rcases List.mem_cons.mp hc with rfl | hc2
        · exact hp
        · exact mergeSplits_length_le rest "" (by decide) hrest c hc2
      · simp only [mergeSplits, if_neg h1, if_neg h2]
        intro c hc
        rcases List.mem_cons.mp hc with rfl | hc2
        · exact hcur
        · by_cases h3 :
            (lastChars cur (min chunk_overlap (chunk_size - p.length))).length
              + p.length ≤ chunk_size
          · rw [if_pos h3] at hc2
            refine mergeSplits_length_le rest _ ?_ hrest c hc2
            rw [String.length_append]
            exact h3
          · rw [if_neg h3] at hc2
            rcases List.mem_cons.mp hc2 with rfl | hc3
            · exact hp
            · exact mergeSplits_length_le rest "" (by decide) hrest c hc3

/-- The last-`n`-characters seed is at most `n` characters long. -/
theorem lastChars_length_le (s : String) (n : Nat) :
    (lastChars s n).length ≤ n := by
  show (s.data.drop (s.data.length - n)).length ≤ n
  rw [List.length_drop]
  omega

/-- The first chunk that the merge loop emits from state `(ps, cur)`
extends the running chunk `cur`: it is `cur` followed by further
material (or no chunk is emitted at all). -/
theorem mergeSplits_head_extends :
    ∀ (ps : List String) (cur : String),
      mergeSplits ps cur = [] ∨
        ∃ t tail, mergeSplits ps cur = (cur ++ t) :: tail
  | [], cur => by
    by_cases h : cur = ""
    · simp [mergeSplits, h]
    · exact Or.inr ⟨"", [], by simp [mergeSplits, h]⟩
  | p :: rest, cur => by
    by_cases h1 : cur.length + p.length ≤ chunk_size
    · simp only [mergeSplits, if_pos h1]
      rcases mergeSplits_head_extends rest (cur ++ p) with hM | ⟨t, tail, hM⟩
      · exact Or.inl hM
      · exact Or.inr ⟨p ++ t, tail, by rw [hM, String.append_assoc]⟩
    · by_cases h2 : cur = ""
      · refine Or.inr ⟨p, mergeSplits rest "", ?_⟩
        subst h2
        rw [show ("" ++ p) = p by simp]
        simp only [mergeSplits, if_neg h1]
        simp
      · refine Or.inr ⟨"", ?_, ?_⟩
        · exact if (lastChars cur (min chunk_overlap (chunk_size - p.length))).length
              + p.length ≤ chunk_size
            then mergeSplits rest
              (lastChars cur (min chunk_overlap (chunk_size - p.length)) ++ p)
            else p :: mergeSplits rest ""
        · simp [mergeSplits, if_neg h1, if_neg h2]

/-- Provided every piece fits `chunk_size`, each chunk the merge loop
emits after the first begins with exactly the overlap seed taken from
its predecessor: the last `min (chunk_overlap, chunk_size - |p|)`
characters of the previous chunk, at most `chunk_overlap` of them,
followed by the next piece `p` and further material. (The relation is
not satisfiable by an empty overlap alone: it forces the next chunk to
start with the stated suffix of its predecessor.) -/
theorem mergeSplits_chain_overlap :
    ∀ (ps : List String) (cur : String),
      (∀ p ∈ ps, p.length ≤ chunk_size) →
      List.Chain' (fun a b => ∃ p t, p.length ≤ chunk_size ∧
          (lastChars a (min chunk_overlap (chunk_size - p.length))).length
            ≤ chunk_overlap ∧
          b = lastChars a (min chunk_overlap (chunk_size - p.length)) ++ p ++ t)
        (mergeSplits ps cur)
  | [], cur, _ => by
    by_cases h : cur = "" <;> simp [mergeSplits, h]
  | p :: rest, cur, hps => by
    have hp := hps p (List.mem_cons_self _ _)
    have hrest : ∀ x ∈ rest, x.length ≤ chunk_size :=
      fun x hx => hps x (List.mem_cons_of_mem p hx)
    by_cases h1 : cur.length + p.length ≤ chunk_size
    · simp only [mergeSplits, if_pos h1]
      exact mergeSplits_chain_overlap rest (cur ++ p) hrest
    · have h2 : cur ≠ "" := by
        intro hc
        subst hc
        have h0 : ("" : String).length = 0 := rfl
        omega
      simp only [mergeSplits, if_neg h1, if_neg h2]
      have hseed : (lastChars cur (min chunk_overlap (chunk_size - p.length))).length
          + p.length ≤ chunk_size := by
        have ha := lastChars_length_le cur (min chunk_overlap (chunk_size - p.length))
        have hb : min chunk_overlap (chunk_size - p.length) ≤ chunk_size - p.length :=
          Nat.min_le_right _ _
        omega
      rw [if_pos hseed]
      rcases mergeSplits_head_extends rest
          (lastChars cur (min chunk_overlap (chunk_size - p.length)) ++ p)
        with hM | ⟨t, tail, hM⟩
      · rw [hM]
        simp
      · rw [hM]
        refine List.Chain'.cons ?_ ?_
        · exact ⟨p, t, hp,
            le_trans (lastChars_length_le _ _) (Nat.min_le_left _ _),
            by rw [String.append_assoc]⟩
        · rw [← hM]
          exact mergeSplits_chain_overlap rest _ hrest

/-- C9 (chunker modelled from the spec): for every extracted text, the
recursive splitter produces chunks each at most 1000 characters long
(the character-boundary fallback prevents even a long atomic token from
exceeding the target), and each chunk after the first begins with
exactly the overlap seed carried over from its predecessor — the last
`min (chunk_overlap, chunk_size - |next piece|)` characters of that
predecessor, of length at most 200 — so consecutive chunks overlap by
up to 200 characters, the overlap being pinned to the seed the
algorithm actually shares. -/
theorem split_text_chunk_bounds (text : String) :
    (∀ c ∈ split_text text, c.length ≤ chunk_size) ∧
      List.Chain' (fun a b => ∃ p t, p.length ≤ chunk_size ∧
          (lastChars a (min chunk_overlap (chunk_size - p.length))).length
            ≤ chunk_overlap ∧
          b = lastChars a (min chunk_overlap (chunk_size - p.length)) ++ p ++ t)
        (split_text text) := by
  constructor
  · intro c hc
    exact mergeSplits_length_le (atomize ["\n\n", "\n", " "] text) ""
      (by decide) (atomize_length_le _ text) c hc
  · exact mergeSplits_chain_overlap (atomize ["\n\n", "\n", " "] text) ""
      (atomize_length_le _ text)

end DocumentService
